import Mathlib

/-!
Verification of the Game-of-Stick rating comparison engine
(`compare_rating_systems.py`).

The rating engine replays an ordered list of duels through Elo (per
K-factor) or Glicko simulations, keeping a player registry (a Python
`dict`, i.e. an insertion-ordered association from names to competitor
objects) and a per-match before/after trace (a list of Python dicts).

Floating-point ratings are modelled by real numbers; Python dicts are
modelled by insertion-ordered association lists with last-write-wins
insertion, exactly mirroring dict-literal and `d[k] = v` semantics.
-/

namespace GameOfStick

/-- A value stored in a trace-entry dict: match numbers are ints, names
are strings, ratings are (real-modelled) floats. -/
inductive PyVal where
  | int : ℤ → PyVal
  | str : String → PyVal
  | real : ℝ → PyVal

/-- A Python dict with string keys, modelled as an insertion-ordered
association list with unique keys. -/
abbrev PyDict := List (String × PyVal)

/-- Python dict insertion `d[k] = v`: if the key is present its value is
replaced in place (position kept), otherwise the pair is appended. -/
def dictInsert : PyDict → String → PyVal → PyDict
  | [], k, v => [(k, v)]
  | (k₀, v₀) :: d, k, v =>
    if k = k₀ then (k₀, v) :: d else (k₀, v₀) :: dictInsert d k v

/-- A Python dict literal `{k₁: v₁, ...}`: keys are inserted left to
right, so a repeated key keeps its first position and its last value. -/
def mkDict (l : List (String × PyVal)) : PyDict :=
  l.foldl (fun d kv => dictInsert d kv.1 kv.2) []

/-- Lookup in an insertion-ordered association list (Python `d[k]` /
`k in d`), generic in the stored competitor type. -/
def lookup {C : Type} : List (String × C) → String → Option C
  | [], _ => none
  | (k, v) :: ps, n => if n = k then some v else lookup ps n

/-- Python `name in players`. -/
def containsName {C : Type} (ps : List (String × C)) (n : String) : Bool :=
  (lookup ps n).isSome

/-- Python `players[k] = v`: replace in place if present, else append. -/
def setEntry {C : Type} : List (String × C) → String → C → List (String × C)
  | [], n, c => [(n, c)]
  | (k, v) :: ps, n, c =>
    if n = k then (k, c) :: ps else (k, v) :: setEntry ps n c

/-- One parsed match row: sequence number, the two player names and the
winner column (a player name, or the draw marker `"NUL"`). -/
structure MatchRec where
  match_num : ℤ
  player1 : String
  player2 : String
  winner : String
deriving DecidableEq

/-- An `elote` `EloCompetitor`: a rating and a per-competitor K-factor. -/
structure EloCompetitor where
  rating : ℝ
  k_factor : ℝ

/-- The Elo player registry (`players` dict in `run_elo_simulation`). -/
abbrev EloRegistry := List (String × EloCompetitor)

/-- Registry read `players[name]`; in every use the key is present, so
the default is never reached. -/
noncomputable def eloGet (ps : EloRegistry) (n : String) : EloCompetitor :=
  (lookup ps n).getD ⟨0, 0⟩

/-- Modelled from the spec: the Elo expected score
`Ea = 1 / (1 + 10^((Rb − Ra)/400))` (§4.2); the concrete updater lives
in the external `elote` library, outside this repository. -/
noncomputable def expected_score (a b : EloCompetitor) : ℝ :=
  1 / (1 + (10 : ℝ) ^ ((b.rating - a.rating) / 400))

/-- Modelled from the spec: the Elo update `R' = R + K·(S − E)` (§4.2),
applied to both competitors with both expected scores read from
pre-match state; writes happen sequentially (first `a`, then `b`), so
an aliased pair (`aName = bName`) updates the single shared state twice. -/
noncomputable def elo_apply (ps : EloRegistry) (aName bName : String)
    (sa sb : ℝ) : EloRegistry :=
  let a := eloGet ps aName
  let b := eloGet ps bName
  let ea := expected_score a b
  let eb := expected_score b a
  let ps1 := setEntry ps aName { a with rating := a.rating + a.k_factor * (sa - ea) }
  let b2 := eloGet ps1 bName
  setEntry ps1 bName { b2 with rating := b2.rating + b2.k_factor * (sb - eb) }

/-- `winner.beat(loser)`: score 1 for the winner, 0 for the loser. -/
noncomputable def elo_beat (ps : EloRegistry) (winName loseName : String) : EloRegistry :=
  elo_apply ps winName loseName 1 0

/-- `a.tied(b)`: score 1/2 for both. -/
noncomputable def elo_tied (ps : EloRegistry) (aName bName : String) : EloRegistry :=
  elo_apply ps aName bName (1/2) (1/2)

/-- The two `if p_name not in players` blocks of `run_elo_simulation`:
lazily create unseen players at the configured initial rating/K. -/
noncomputable def eloMaterialize (k_factor initial_rating : ℝ)
    (players : EloRegistry) (m : MatchRec) : EloRegistry :=
  let players :=
    if containsName players m.player1 then players
    else players ++ [(m.player1, ⟨initial_rating, k_factor⟩)]
  if containsName players m.player2 then players
  else players ++ [(m.player2, ⟨initial_rating, k_factor⟩)]

/-- The outcome dispatch of `run_elo_simulation`: `"NUL"` → tied,
winner equal to `player1` → `p1.beat(p2)`, anything else →
`p2.beat(p1)`. -/
noncomputable def eloResolve (players : EloRegistry) (m : MatchRec) : EloRegistry :=
  if m.winner = "NUL" then elo_tied players m.player1 m.player2
  else if m.winner = m.player1 then elo_beat players m.player1 m.player2
  else elo_beat players m.player2 m.player1

/-- One iteration of the `for match in matches` loop of
`run_elo_simulation`: materialize unseen players, snapshot both
pre-match ratings, resolve the outcome, and build the history entry. -/
noncomputable def eloProcessMatch (k_factor initial_rating : ℝ)
    (players : EloRegistry) (m : MatchRec) : EloRegistry × PyDict :=
  let players := eloMaterialize k_factor initial_rating players m
  let p1_before := (eloGet players m.player1).rating
  let p2_before := (eloGet players m.player2).rating
  let players2 := eloResolve players m
  (players2, mkDict
    [("match", PyVal.int m.match_num),
     ("player1", PyVal.str m.player1),
     ("player2", PyVal.str m.player2),
     ("winner", PyVal.str m.winner),
     (m.player1 ++ "_before", PyVal.real p1_before),
     (m.player1 ++ "_after", PyVal.real (eloGet players2 m.player1).rating),
     (m.player2 ++ "_before", PyVal.real p2_before),
     (m.player2 ++ "_after", PyVal.real (eloGet players2 m.player2).rating)])

/-- The loop body shared by both simulation drivers: thread the registry
and append the trace entry. -/
def simStepFold {S : Type} (step : S → MatchRec → S × PyDict)
    (acc : S × List PyDict) (m : MatchRec) : S × List PyDict :=
  ((step acc.1 m).1, acc.2 ++ [(step acc.1 m).2])

/-- The driver loop: start from an empty registry and trace, process
matches strictly in input order. -/
def simRun {S : Type} (step : S → MatchRec → S × PyDict) (s0 : S)
    (matchList : List MatchRec) : S × List PyDict :=
  matchList.foldl (simStepFold step) (s0, [])

/-- `run_elo_simulation(matches, k_factor, initial_rating=1200)`:
returns the final players dict and the per-match history
(`initial_rating` defaults to 1200 in the source; it is passed
explicitly here). -/
noncomputable def run_elo_simulation (matchList : List MatchRec) (k_factor : ℝ)
    (initial_rating : ℝ) : EloRegistry × List PyDict :=
  simRun (eloProcessMatch k_factor initial_rating) [] matchList

/-- Modelled from the spec: the interface of an `elote` Glicko
competitor class (`GlickoCompetitor` / `Glicko2Competitor` live in the
external `elote` library, outside this repository): a constructor
taking the initial rating, a rating accessor, and the registry-level
effect of `p1.tied(p2)` / `winner.beat(loser)` (both competitors are
read and written through the shared registry, as Python object
mutation does). -/
structure GlickoClass (C : Type) where
  mk_competitor : ℝ → C
  rating : C → ℝ
  tiedUpd : List (String × C) → String → String → List (String × C)
  beatUpd : List (String × C) → String → String → List (String × C)

/-- The algorithm-selection expression of `run_glicko_simulation`
(line `CompetitorClass = GlickoCompetitor if glicko_version == 1 else
Glicko2Competitor`): version 1 picks Glicko-1, every other value picks
Glicko-2. -/
def chooseCompetitorClass {C : Type} (g1 g2 : GlickoClass C)
    (glicko_version : ℤ) : GlickoClass C :=
  if glicko_version = 1 then g1 else g2

/-- One iteration of the `for match in matches` loop of
`run_glicko_simulation`: same shape as the Elo loop, with the updates
and rating reads delegated to the selected competitor class. -/
noncomputable def glickoProcessMatch {C : Type} (cls : GlickoClass C)
    (initial_rating : ℝ) (players : List (String × C)) (m : MatchRec) :
    List (String × C) × PyDict :=
  let players :=
    if containsName players m.player1 then players
    else players ++ [(m.player1, cls.mk_competitor initial_rating)]
  let players :=
    if containsName players m.player2 then players
    else players ++ [(m.player2, cls.mk_competitor initial_rating)]
  let p1_before := cls.rating ((lookup players m.player1).getD (cls.mk_competitor initial_rating))
  let p2_before := cls.rating ((lookup players m.player2).getD (cls.mk_competitor initial_rating))
  let players2 :=
    if m.winner = "NUL" then cls.tiedUpd players m.player1 m.player2
    else if m.winner = m.player1 then cls.beatUpd players m.player1 m.player2
    else cls.beatUpd players m.player2 m.player1
  (players2, mkDict
    [("match", PyVal.int m.match_num),
     ("player1", PyVal.str m.player1),
     ("player2", PyVal.str m.player2),
     ("winner", PyVal.str m.winner),
     (m.player1 ++ "_before", PyVal.real p1_before),
     (m.player1 ++ "_after", PyVal.real (cls.rating ((lookup players2 m.player1).getD (cls.mk_competitor initial_rating)))),
     (m.player2 ++ "_before", PyVal.real p2_before),
     (m.player2 ++ "_after", PyVal.real (cls.rating ((lookup players2 m.player2).getD (cls.mk_competitor initial_rating))))])

/-- `run_glicko_simulation(matches, initial_rating=1200,
glicko_version=1)`: selects the competitor class once, before the
loop, then replays the matches (`initial_rating` and `glicko_version`
default to 1200 and 1 in the source; they are passed explicitly here). -/
noncomputable def run_glicko_simulation {C : Type} (g1 g2 : GlickoClass C)
    (matchList : List MatchRec) (initial_rating : ℝ)
    (glicko_version : ℤ) : List (String × C) × List PyDict :=
  simRun (glickoProcessMatch (chooseCompetitorClass g1 g2 glicko_version) initial_rating)
    [] matchList

/-- A trivial competitor class used to instantiate generic statements
at a concrete type. -/
def unitGlickoClass : GlickoClass Unit where
  mk_competitor := fun _ => ()
  rating := fun _ => 0
  tiedUpd := fun ps _ _ => ps
  beatUpd := fun ps _ _ => ps

/-- The descending-by-rating comparison used by
`standings.sort(key=lambda x: x[1], reverse=True)`. -/
def byRatingDesc (a b : String × ℝ) : Prop := b.2 ≤ a.2

noncomputable instance : DecidableRel byRatingDesc := fun a b =>
  inferInstanceAs (Decidable (b.2 ≤ a.2))

instance : IsTotal (String × ℝ) byRatingDesc :=
  ⟨fun a b => le_total b.2 a.2⟩

instance : IsTrans (String × ℝ) byRatingDesc :=
  ⟨fun _ _ _ h1 h2 => le_trans h2 h1⟩

/-- `get_final_standings(players)`: list the `(name, rating)` pairs in
registry (insertion) order, then stable-sort by rating descending
(Python's list sort is stable, and `reverse=True` does not reorder
ties; insertion sort with a total `≥`-style relation computes the same
stable result). -/
noncomputable def get_final_standings (players : EloRegistry) : List (String × ℝ) :=
  List.insertionSort byRatingDesc (players.map fun nc => (nc.1, nc.2.rating))

/-- The call `get_final_standings(players)` in state-passing form: the
function body only reads the registry (it sorts a fresh local list),
so the post-call registry is the pre-call one. -/
noncomputable def get_final_standings_call (players : EloRegistry) :
    List (String × ℝ) × EloRegistry :=
  (get_final_standings players, players)

/-- An `elote` `Glicko2Competitor` as read by the uncertainty report:
rating, rating deviation and volatility. -/
structure Glicko2Competitor where
  rating : ℝ
  rd : ℝ
  volatility : ℝ

/-- The Glicko-2 player registry. -/
abbrev Glicko2Registry := List (String × Glicko2Competitor)

/-- One row of `get_glicko2_standings_with_uncertainty`. -/
structure Glicko2Standing where
  name : String
  rating : ℝ
  rd : ℝ
  volatility : ℝ

/-- The descending-by-rating comparison for Glicko-2 standings rows. -/
def g2ByRatingDesc (a b : Glicko2Standing) : Prop := b.rating ≤ a.rating

noncomputable instance : DecidableRel g2ByRatingDesc := fun a b =>
  inferInstanceAs (Decidable (b.rating ≤ a.rating))

instance : IsTotal Glicko2Standing g2ByRatingDesc :=
  ⟨fun a b => le_total b.rating a.rating⟩

instance : IsTrans Glicko2Standing g2ByRatingDesc :=
  ⟨fun _ _ _ h1 h2 => le_trans h2 h1⟩

/-- `get_glicko2_standings_with_uncertainty(players)`: collect
name/rating/RD/volatility rows in registry order, then stable-sort by
rating descending. -/
noncomputable def get_glicko2_standings_with_uncertainty
    (players : Glicko2Registry) : List Glicko2Standing :=
  List.insertionSort g2ByRatingDesc
    (players.map fun np => ⟨np.1, np.2.rating, np.2.rd, np.2.volatility⟩)

/-- The call `get_glicko2_standings_with_uncertainty(players)` in
state-passing form: the body only reads the registry and the
competitors' fields. -/
noncomputable def get_glicko2_standings_call (players : Glicko2Registry) :
    List Glicko2Standing × Glicko2Registry :=
  (get_glicko2_standings_with_uncertainty players, players)

lemma lookup_setEntry_self {C : Type} (ps : List (String × C)) (n : String) (c : C) :
    lookup (setEntry ps n c) n = some c := by
  induction ps with
  | nil => simp [setEntry, lookup]
  | cons kv ps ih =>
    obtain ⟨k, v⟩ := kv
    by_cases h : n = k
    · simp [setEntry, h, lookup]
    · simp [setEntry, h, lookup, ih]

lemma lookup_setEntry_ne {C : Type} (ps : List (String × C)) {n m : String} (c : C)
    (h : m ≠ n) : lookup (setEntry ps n c) m = lookup ps m := by
  induction ps with
  | nil => simp [setEntry, lookup, h]
  | cons kv ps ih =>
    obtain ⟨k, v⟩ := kv
    by_cases hk : n = k
    · subst hk
      simp [setEntry, lookup, h]
    · by_cases hm : m = k
      · simp [setEntry, hk, lookup, hm]
      · simp [setEntry, hk, lookup, hm, ih]

lemma map_fst_setEntry {C : Type} (ps : List (String × C)) (n : String) (c : C)
    (h : containsName ps n = true) :
    (setEntry ps n c).map Prod.fst = ps.map Prod.fst := by
  induction ps with
  | nil => simp [containsName, lookup] at h
  | cons kv ps ih =>
    obtain ⟨k, v⟩ := kv
    by_cases hk : n = k
    · simp [setEntry, hk]
    · simp only [containsName, lookup, if_neg hk] at h
      simp [setEntry, hk, ih h]

lemma lookup_append_right {C : Type} (ps qs : List (String × C)) (n : String)
    (h : containsName ps n = false) :
    lookup (ps ++ qs) n = lookup qs n := by
  induction ps with
  | nil => simp
  | cons kv ps ih =>
    obtain ⟨k, v⟩ := kv
    by_cases hk : n = k
    · simp [containsName, lookup, hk] at h
    · simp only [containsName, lookup, if_neg hk] at h
      simp [lookup, hk, ih h]

lemma expected_score_add (a b : EloCompetitor) :
    expected_score a b + expected_score b a = 1 := by
  unfold expected_score
  have hx : (a.rating - b.rating) / 400 = -((b.rating - a.rating) / 400) := by ring
  rw [hx, Real.rpow_neg (by norm_num : (0:ℝ) ≤ 10)]
  have ht : (0:ℝ) < (10 : ℝ) ^ ((b.rating - a.rating) / 400) :=
    Real.rpow_pos_of_pos (by norm_num) _
  field_simp
  ring

lemma expected_score_eq_half (a b : EloCompetitor) (h : a.rating = b.rating) :
    expected_score a b = 1 / 2 := by
  unfold expected_score
  rw [h]
  norm_num

lemma simRun_nil {S : Type} (step : S → MatchRec → S × PyDict) (s0 : S) :
    simRun step s0 [] = (s0, []) := rfl

lemma foldl_simStepFold_trace {S : Type} (step : S → MatchRec → S × PyDict) :
    ∀ (l : List MatchRec) (s : S) (h : List PyDict),
      l.foldl (simStepFold step) (s, h) =
        ((l.foldl (simStepFold step) (s, [])).1,
          h ++ (l.foldl (simStepFold step) (s, [])).2) := by
  intro l
  induction l with
  | nil => intro s h; simp
  | cons m l ih =>
    intro s h
    simp only [List.foldl_cons]
    rw [show simStepFold step (s, h) m = ((step s m).1, h ++ [(step s m).2]) from rfl,
      show simStepFold step (s, []) m = ((step s m).1, [(step s m).2]) from rfl,
      ih _ (h ++ [(step s m).2]), ih _ [(step s m).2]]
    simp

lemma simRun_append {S : Type} (step : S → MatchRec → S × PyDict) (s0 : S)
    (l1 l2 : List MatchRec) :
    simRun step s0 (l1 ++ l2) =
      ((simRun step (simRun step s0 l1).1 l2).1,
        (simRun step s0 l1).2 ++ (simRun step (simRun step s0 l1).1 l2).2) := by
  unfold simRun
  rw [List.foldl_append]
  rw [show l1.foldl (simStepFold step) (s0, []) =
    ((l1.foldl (simStepFold step) (s0, [])).1, (l1.foldl (simStepFold step) (s0, [])).2) from rfl]
  rw [foldl_simStepFold_trace]

lemma simRun_snoc {S : Type} (step : S → MatchRec → S × PyDict) (s0 : S)
    (l : List MatchRec) (m : MatchRec) :
    simRun step s0 (l ++ [m]) =
      ((step (simRun step s0 l).1 m).1,
        (simRun step s0 l).2 ++ [(step (simRun step s0 l).1 m).2]) := by
  rw [simRun_append]
  rfl

lemma simRun_trace_length {S : Type} (step : S → MatchRec → S × PyDict) (s0 : S)
    (l : List MatchRec) : (simRun step s0 l).2.length = l.length := by
  induction l using List.reverseRecOn with
  | nil => rfl
  | append_singleton l m ih =>
    rw [simRun_snoc]
    simp [ih]

lemma simRun_trace_get {S : Type} (step : S → MatchRec → S × PyDict) (s0 : S)
    (l : List MatchRec) (i : ℕ) (m : MatchRec) (hm : l[i]? = some m) :
    (simRun step s0 l).2[i]? =
      some (step (simRun step s0 (l.take i)).1 m).2 := by
  have hi : i < l.length := by
    by_contra hlt
    rw [List.getElem?_eq_none (le_of_not_lt hlt)] at hm
    exact Option.noConfusion hm
  have hsplit : l = l.take (i + 1) ++ l.drop (i + 1) := (List.take_append_drop _ l).symm
  have htake : l.take (i + 1) = l.take i ++ [m] := by
    rw [List.take_succ, hm]
    rfl
  conv_lhs => rw [hsplit]
  rw [simRun_append, htake, simRun_snoc]
  have hlen : ((simRun step s0 (l.take i)).2 ++
      [(step (simRun step s0 (l.take i)).1 m).2]).length = i + 1 := by
    simp [simRun_trace_length]
    omega
  rw [List.getElem?_append_left (by rw [hlen]; omega)]
  rw [List.getElem?_append_right (by simp [simRun_trace_length])]
  simp [simRun_trace_length, min_eq_left (le_of_lt hi)]

lemma string_eq_empty_of_length_zero {s : String} (h : s.length = 0) : s = "" := by
  cases s with
  | mk d =>
    simp [String.length] at h
    simp [h]

lemma append_ne_of_not_suffix {n t u : String} (h : ¬ t.data <:+ u.data) :
    n ++ t ≠ u := by
  intro he
  apply h
  rw [← he, String.data_append]
  exact List.suffix_append n.data t.data

lemma append_right_ne {n t u : String} (h : t.length ≠ u.length) :
    n ++ t ≠ n ++ u := by
  intro he
  have hl := congrArg String.length he
  rw [String.length_append, String.length_append] at hl
  omega

lemma filter_orderedInsert_pos {α : Type} (r : α → α → Prop) [DecidableRel r]
    (p : α → Bool) (x : α) (l : List α) (h1 : p x = true)
    (h2 : ∀ y, p y = true → r x y) :
    (List.orderedInsert r x l).filter p = x :: l.filter p := by
  induction l with
  | nil => simp [List.orderedInsert, h1]
  | cons b l ih =>
    by_cases hr : r x b
    · simp [List.orderedInsert, hr, List.filter_cons, h1]
    · have hpb : p b = false := by
        cases hpb : p b with
        | false => rfl
        | true => exact absurd (h2 b hpb) hr
      simp [List.orderedInsert, hr, List.filter_cons, hpb, ih]

lemma filter_orderedInsert_neg {α : Type} (r : α → α → Prop) [DecidableRel r]
    (p : α → Bool) (x : α) (l : List α) (h1 : p x = false) :
    (List.orderedInsert r x l).filter p = l.filter p := by
  induction l with
  | nil => simp [List.orderedInsert, h1]
  | cons b l ih =>
    by_cases hr : r x b
    · simp [List.orderedInsert, hr, List.filter_cons, h1]
    · simp [List.orderedInsert, hr, List.filter_cons, ih]

lemma filter_insertionSort {α : Type} (r : α → α → Prop) [DecidableRel r]
    (p : α → Bool) (hp : ∀ x y, p x = true → p y = true → r x y) :
    ∀ l : List α, (List.insertionSort r l).filter p = l.filter p := by
  intro l
  induction l with
  | nil => rfl
  | cons a l ih =>
    show (List.orderedInsert r a (List.insertionSort r l)).filter p = _
    cases ha : p a with
    | false =>
      rw [filter_orderedInsert_neg r p a _ ha, ih, List.filter_cons_of_neg]
      simp [ha]
    | true =>
      rw [filter_orderedInsert_pos r p a _ ha (fun y hy => hp a y ha hy), ih,
        List.filter_cons_of_pos]
      simp [ha]

lemma eloGet_setEntry_self (ps : EloRegistry) (n : String) (c : EloCompetitor) :
    eloGet (setEntry ps n c) n = c := by
  simp [eloGet, lookup_setEntry_self]

lemma eloGet_setEntry_ne (ps : EloRegistry) {n m : String} (c : EloCompetitor)
    (h : m ≠ n) : eloGet (setEntry ps n c) m = eloGet ps m := by
  simp [eloGet, lookup_setEntry_ne _ _ h]

lemma elo_apply_delta (ps : EloRegistry) (aName bName : String) (sa sb : ℝ)
    (hne : aName ≠ bName)
    (hk : (eloGet ps aName).k_factor = (eloGet ps bName).k_factor)
    (hs : sa + sb = 1) :
    (eloGet (elo_apply ps aName bName sa sb) aName).rating - (eloGet ps aName).rating =
      -((eloGet (elo_apply ps aName bName sa sb) bName).rating - (eloGet ps bName).rating) := by
  have hES := expected_score_add (eloGet ps aName) (eloGet ps bName)
  unfold elo_apply
  rw [eloGet_setEntry_ne _ _ hne, eloGet_setEntry_self, eloGet_setEntry_self,
    eloGet_setEntry_ne _ _ (Ne.symm hne)]
  rw [hk]
  have heb : expected_score (eloGet ps bName) (eloGet ps aName) =
      1 - expected_score (eloGet ps aName) (eloGet ps bName) := by linarith
  have hsb : sb = 1 - sa := by linarith
  rw [heb, hsb]
  ring

lemma containsName_append_left {C : Type} (ps qs : List (String × C)) (n : String)
    (h : containsName ps n = true) : containsName (ps ++ qs) n = true := by
  induction ps with
  | nil => simp [containsName, lookup] at h
  | cons kv ps ih =>
    obtain ⟨k, v⟩ := kv
    by_cases hk : n = k
    · simp [containsName, lookup, hk]
    · simp only [containsName, lookup, if_neg hk] at h ⊢
      exact ih h

lemma containsName_append_self {C : Type} (ps : List (String × C)) (n : String) (c : C) :
    containsName (ps ++ [(n, c)]) n = true := by
  induction ps with
  | nil => simp [containsName, lookup]
  | cons kv ps ih =>
    obtain ⟨k, v⟩ := kv
    by_cases hk : n = k
    · simp [containsName, lookup, hk]
    · simp only [List.cons_append, containsName, lookup, if_neg hk] at ih ⊢
      exact ih

lemma containsName_setEntry {C : Type} (ps : List (String × C)) (n q : String) (c : C)
    (h : containsName ps q = true) : containsName (setEntry ps n c) q = true := by
  by_cases hq : q = n
  · subst hq
    simp [containsName, lookup_setEntry_self]
  · rw [containsName, lookup_setEntry_ne _ _ hq]
    exact h

lemma containsName_eloMaterialize₁ (k_factor initial_rating : ℝ) (ps : EloRegistry)
    (m : MatchRec) :
    containsName (eloMaterialize k_factor initial_rating ps m) m.player1 = true := by
  unfold eloMaterialize
  cases h1 : containsName ps m.player1 with
  | true =>
    cases h2 : containsName ps m.player2 with
    | true => simp [h1, h2]
    | false => simp [h1, h2, containsName_append_left _ _ _ h1]
  | false =>
    cases h2 : containsName (ps ++ [(m.player1, ⟨initial_rating, k_factor⟩)]) m.player2 with
    | true => simp [h1, h2, containsName_append_self]
    | false =>
      have hc := containsName_append_left
        (ps ++ [(m.player1, (⟨initial_rating, k_factor⟩ : EloCompetitor))])
        [(m.player2, ⟨initial_rating, k_factor⟩)] m.player1
        (containsName_append_self ps m.player1 ⟨initial_rating, k_factor⟩)
      simpa [h1, h2] using hc

lemma containsName_eloMaterialize₂ (k_factor initial_rating : ℝ) (ps : EloRegistry)
    (m : MatchRec) :
    containsName (eloMaterialize k_factor initial_rating ps m) m.player2 = true := by
  unfold eloMaterialize
  cases h1 : containsName ps m.player1 with
  | true =>
    cases h2 : containsName ps m.player2 with
    | true => simp [h1, h2]
    | false => simp [h1, h2, containsName_append_self]
  | false =>
    cases h2 : containsName (ps ++ [(m.player1, ⟨initial_rating, k_factor⟩)]) m.player2 with
    | true => simp [h1, h2]
    | false =>
      have hc := containsName_append_self
        (ps ++ [(m.player1, (⟨initial_rating, k_factor⟩ : EloCompetitor))])
        m.player2 ⟨initial_rating, k_factor⟩
      simpa [h1, h2] using hc

lemma map_fst_elo_apply (ps : EloRegistry) (aName bName : String) (sa sb : ℝ)
    (ha : containsName ps aName = true) (hb : containsName ps bName = true) :
    (elo_apply ps aName bName sa sb).map Prod.fst = ps.map Prod.fst := by
  unfold elo_apply
  rw [map_fst_setEntry _ _ _ (containsName_setEntry _ _ _ _ hb),
    map_fst_setEntry _ _ _ ha]

lemma mkDict_self_keys (n : String) (v1 v2 v3 v4 b1 a1 b2 a2 : PyVal) :
    (mkDict [("match", v1), ("player1", v2), ("player2", v3), ("winner", v4),
      (n ++ "_before", b1), (n ++ "_after", a1),
      (n ++ "_before", b2), (n ++ "_after", a2)]).map Prod.fst =
    ["match", "player1", "player2", "winner", n ++ "_before", n ++ "_after"] := by
  have hb1 : n ++ "_before" ≠ "match" := append_ne_of_not_suffix (by decide)
  have hb2 : n ++ "_before" ≠ "player1" := append_ne_of_not_suffix (by decide)
  have hb3 : n ++ "_before" ≠ "player2" := append_ne_of_not_suffix (by decide)
  have hb4 : n ++ "_before" ≠ "winner" := append_ne_of_not_suffix (by decide)
  have ha1 : n ++ "_after" ≠ "match" := append_ne_of_not_suffix (by decide)
  have ha2 : n ++ "_after" ≠ "player1" := append_ne_of_not_suffix (by decide)
  have ha3 : n ++ "_after" ≠ "player2" := append_ne_of_not_suffix (by decide)
  have ha4 : n ++ "_after" ≠ "winner" := append_ne_of_not_suffix (by decide)
  have hab : n ++ "_after" ≠ n ++ "_before" := append_right_ne (by decide)
  simp [mkDict, dictInsert, hb1, hb2, hb3, hb4, ha1, ha2, ha3, ha4, hab]

/-- C1: the claim says a malformed outcome (winner name matching neither
participant and not the draw marker) is reported as an `InvalidOutcome`
error and never silently credited to player2. The code has no error
path: any winner string other than `"NUL"` and `player1` falls into the
`else` branch `p2.beat(p1)`; concretely, the match `(A, B, winner C)`
with K=40 and initial rating 1200 silently gives B the win (B=1220,
A=1180). -/
theorem invalid_outcome_credits_player2 (ps : EloRegistry) (m : MatchRec)
    (h1 : m.winner ≠ "NUL") (h2 : m.winner ≠ m.player1) :
    eloResolve ps m = elo_beat ps m.player2 m.player1 ∧
    (run_elo_simulation [⟨1, "A", "B", "C"⟩] 40 1200).1 =
      [("A", ⟨1180, 40⟩), ("B", ⟨1220, 40⟩)] := by
  constructor
  · rw [eloResolve, if_neg h1, if_neg h2]
  · simp [run_elo_simulation, simRun, simStepFold, eloProcessMatch, eloMaterialize,
      eloResolve, elo_beat, elo_tied, elo_apply, eloGet, lookup, setEntry,
      containsName, expected_score_eq_half]
    norm_num

theorem invalid_outcome_credits_player2_witness :
    (("C" : String) ≠ "NUL" ∧ ("C" : String) ≠ "A") ∧
    (eloResolve [] ⟨1, "A", "B", "C"⟩ = elo_beat [] ("B") ("A") ∧
      (run_elo_simulation [⟨1, "A", "B", "C"⟩] 40 1200).1 =
        [("A", ⟨1180, 40⟩), ("B", ⟨1220, 40⟩)]) :=
  ⟨⟨by decide, by decide⟩,
    invalid_outcome_credits_player2 [] ⟨1, "A", "B", "C"⟩ (by decide) (by decide)⟩

/-- C2: the claim says an unsupported algorithm selection (e.g.
`glicko_version = 3`) is reported as an `UnsupportedAlgorithm` error at
configuration time, before any match is processed. The code has no
error path: `CompetitorClass = GlickoCompetitor if glicko_version == 1
else Glicko2Competitor` silently selects Glicko-2 for every value other
than 1, and the simulation then processes all matches normally. -/
theorem unsupported_glicko_version_silent_fallback {C : Type}
    (g1 g2 : GlickoClass C) (matchList : List MatchRec)
    (initial_rating : ℝ) (glicko_version : ℤ) (hv : glicko_version ≠ 1) :
    chooseCompetitorClass g1 g2 glicko_version = g2 ∧
    run_glicko_simulation g1 g2 matchList initial_rating glicko_version =
      run_glicko_simulation g1 g2 matchList initial_rating 2 := by
  constructor
  · rw [chooseCompetitorClass, if_neg hv]
  · rw [run_glicko_simulation, run_glicko_simulation, chooseCompetitorClass,
      chooseCompetitorClass, if_neg hv, if_neg (by decide : (2:ℤ) ≠ 1)]

theorem unsupported_glicko_version_silent_fallback_witness :
    ((3 : ℤ) ≠ 1) ∧
    (chooseCompetitorClass unitGlickoClass unitGlickoClass 3 = unitGlickoClass ∧
      run_glicko_simulation unitGlickoClass unitGlickoClass [⟨1, "A", "B", "A"⟩] 1200 3 =
        run_glicko_simulation unitGlickoClass unitGlickoClass [⟨1, "A", "B", "A"⟩] 1200 2) :=
  ⟨by decide,
    unsupported_glicko_version_silent_fallback unitGlickoClass unitGlickoClass
      [⟨1, "A", "B", "A"⟩] 1200 3 (by decide)⟩

/-- C3: the claim (and the spec, which flags this as a defect of the
original code) says a participant literally named `"NUL"` makes outcome
resolution ambiguous and must be reported as an error. The code checks
`winner == "NUL"` first and unconditionally treats it as a draw: for
the match `(NUL, B, winner NUL)` — where the recorded winner string is
also participant NUL's name — both players are silently `tied`, ending
at 1200 each, with no error. -/
theorem nul_participant_treated_as_draw (ps : EloRegistry) (m : MatchRec)
    (h : m.winner = "NUL") :
    eloResolve ps m = elo_tied ps m.player1 m.player2 ∧
    (run_elo_simulation [⟨1, "NUL", "B", "NUL"⟩] 40 1200).1 =
      [("NUL", ⟨1200, 40⟩), ("B", ⟨1200, 40⟩)] := by
  constructor
  · rw [eloResolve, if_pos h]
  · simp [run_elo_simulation, simRun, simStepFold, eloProcessMatch, eloMaterialize,
      eloResolve, elo_beat, elo_tied, elo_apply, eloGet, lookup, setEntry,
      containsName, expected_score_eq_half]

theorem nul_participant_treated_as_draw_witness :
    (("NUL" : String) = "NUL") ∧
    (eloResolve [] ⟨1, "NUL", "B", "NUL"⟩ = elo_tied [] ("NUL") ("B") ∧
      (run_elo_simulation [⟨1, "NUL", "B", "NUL"⟩] 40 1200).1 =
        [("NUL", ⟨1200, 40⟩), ("B", ⟨1200, 40⟩)]) :=
  ⟨rfl, nul_participant_treated_as_draw [] ⟨1, "NUL", "B", "NUL"⟩ rfl⟩

/-- C4: Elo with K=40 and initial rating 1200 on the single match
`A beats B` (both unseen): the expected score of A against B is exactly
1/2, and the final registry is exactly A=1220, B=1180 (both keeping
K-factor 40, in first-appearance order). -/
theorem elo_concrete_scenario_k40 :
    expected_score
        (eloGet (eloMaterialize 40 1200 [] ⟨1, "A", "B", "A"⟩) ("A"))
        (eloGet (eloMaterialize 40 1200 [] ⟨1, "A", "B", "A"⟩) ("B")) = 1 / 2 ∧
    (run_elo_simulation [⟨1, "A", "B", "A"⟩] 40 1200).1 =
      [("A", ⟨1220, 40⟩), ("B", ⟨1180, 40⟩)] := by
  constructor
  · apply expected_score_eq_half
    simp [eloMaterialize, eloGet, lookup, containsName]
  · simp [run_elo_simulation, simRun, simStepFold, eloProcessMatch, eloMaterialize,
      eloResolve, elo_beat, elo_tied, elo_apply, eloGet, lookup, setEntry,
      containsName, expected_score_eq_half]
    norm_num

/-- C5: zero-sum property of every processed Elo match between two
distinct competitors whose (post-materialization) K-factors agree: the
rating change of player1 is exactly the negative of the rating change
of player2, in each of the three outcome branches (draw, player1 wins,
anything else credited to player2). -/
theorem elo_zero_sum (k_factor initial_rating : ℝ) (ps : EloRegistry)
    (m : MatchRec) (hne : m.player1 ≠ m.player2)
    (hk : (eloGet (eloMaterialize k_factor initial_rating ps m) m.player1).k_factor =
      (eloGet (eloMaterialize k_factor initial_rating ps m) m.player2).k_factor) :
    (eloGet (eloProcessMatch k_factor initial_rating ps m).1 m.player1).rating -
      (eloGet (eloMaterialize k_factor initial_rating ps m) m.player1).rating =
    -((eloGet (eloProcessMatch k_factor initial_rating ps m).1 m.player2).rating -
      (eloGet (eloMaterialize k_factor initial_rating ps m) m.player2).rating) := by
  show (eloGet (eloResolve (eloMaterialize k_factor initial_rating ps m) m) m.player1).rating -
      _ = -((eloGet (eloResolve (eloMaterialize k_factor initial_rating ps m) m) m.player2).rating - _)
  rw [eloResolve]
  by_cases hnul : m.winner = "NUL"
  · rw [if_pos hnul, elo_tied]
    exact elo_apply_delta _ _ _ _ _ hne hk (by norm_num)
  · rw [if_neg hnul]
    by_cases hw1 : m.winner = m.player1
    · rw [if_pos hw1, elo_beat]
      exact elo_apply_delta _ _ _ _ _ hne hk (by norm_num)
    · rw [if_neg hw1, elo_beat]
      have hd := elo_apply_delta (eloMaterialize k_factor initial_rating ps m)
        m.player2 m.player1 1 0 (Ne.symm hne) hk.symm (by norm_num)
      linarith

theorem elo_zero_sum_witness :
    (("A" : String) ≠ "B" ∧
      (eloGet (eloMaterialize 40 1200 [] ⟨1, "A", "B", "A"⟩) ("A")).k_factor =
        (eloGet (eloMaterialize 40 1200 [] ⟨1, "A", "B", "A"⟩) ("B")).k_factor) ∧
    (eloGet (eloProcessMatch 40 1200 [] ⟨1, "A", "B", "A"⟩).1 ("A")).rating -
        (eloGet (eloMaterialize 40 1200 [] ⟨1, "A", "B", "A"⟩) ("A")).rating =
      -((eloGet (eloProcessMatch 40 1200 [] ⟨1, "A", "B", "A"⟩).1 ("B")).rating -
        (eloGet (eloMaterialize 40 1200 [] ⟨1, "A", "B", "A"⟩) ("B")).rating) :=
  ⟨⟨by decide, rfl⟩, elo_zero_sum 40 1200 [] ⟨1, "A", "B", "A"⟩ (by decide) rfl⟩

/-- C6: determinism of the simulation drivers: for equal match lists,
equal parameters and equal algorithm selections, two runs produce equal
results — final registries and traces alike. The embedded drivers are
pure functions of their inputs (the source contains no randomness), so
equal inputs force equal outputs for both the Elo and the Glicko
driver (the latter for every deterministic competitor class). -/
theorem simulation_deterministic {C : Type} (g1 g2 : GlickoClass C)
    (ms1 ms2 : List MatchRec) (k1 k2 i1 i2 : ℝ) (v1 v2 : ℤ)
    (hm : ms1 = ms2) (hk : k1 = k2) (hi : i1 = i2) (hv : v1 = v2) :
    run_elo_simulation ms1 k1 i1 = run_elo_simulation ms2 k2 i2 ∧
    run_glicko_simulation g1 g2 ms1 i1 v1 =
      run_glicko_simulation g1 g2 ms2 i2 v2 := by
  subst hm
  subst hk
  subst hi
  subst hv
  exact ⟨rfl, rfl⟩

theorem simulation_deterministic_witness :
    (([⟨1, "A", "B", "A"⟩] : List MatchRec) = [⟨1, "A", "B", "A"⟩] ∧
      (40 : ℝ) = 40 ∧ (1200 : ℝ) = 1200 ∧ (1 : ℤ) = 1) ∧
    (run_elo_simulation [⟨1, "A", "B", "A"⟩] 40 1200 =
        run_elo_simulation [⟨1, "A", "B", "A"⟩] 40 1200 ∧
      run_glicko_simulation unitGlickoClass unitGlickoClass [⟨1, "A", "B", "A"⟩] 1200 1 =
        run_glicko_simulation unitGlickoClass unitGlickoClass [⟨1, "A", "B", "A"⟩] 1200 1) :=
  ⟨⟨rfl, rfl, rfl, rfl⟩,
    simulation_deterministic unitGlickoClass unitGlickoClass
      [⟨1, "A", "B", "A"⟩] [⟨1, "A", "B", "A"⟩] 40 40 1200 1200 1 1 rfl rfl rfl rfl⟩

/-- C7: `get_final_standings` returns the `(name, rating)` pairs of the
registry sorted by rating in descending order; it is a permutation of
the registry's pairs, and players with equal ratings keep their
registry (first-appearance/insertion) order — expressed by the filter
at each rating value being preserved exactly — so the output is
deterministic. -/
theorem final_standings_sorted_stable (players : EloRegistry) :
    List.Sorted byRatingDesc (get_final_standings players) ∧
    (get_final_standings players).Perm
      (players.map fun nc => (nc.1, nc.2.rating)) ∧
    ∀ c : ℝ, (get_final_standings players).filter (fun x => decide (x.2 = c)) =
      (players.map fun nc => (nc.1, nc.2.rating)).filter (fun x => decide (x.2 = c)) := by
  refine ⟨List.sorted_insertionSort byRatingDesc _,
    List.perm_insertionSort byRatingDesc _, ?_⟩
  intro c
  refine filter_insertionSort byRatingDesc _ (fun x y hx hy => ?_) _
  rw [decide_eq_true_eq] at hx hy
  show y.2 ≤ x.2
  rw [hx, hy]

/-- C8: each simulation driver appends exactly one trace entry per
match, in processing order (the i-th trace entry is the entry of the
i-th match, computed from the registry state after the first i
matches); and each Elo entry records both players' ratings read from
the materialized registry before the update (`eloResolve`) runs, plus
both ratings read after it — snapshots before either mutation. -/
theorem one_trace_entry_per_match {C : Type} (g1 g2 : GlickoClass C)
    (ms : List MatchRec) (k_factor initial_rating : ℝ) (v : ℤ) :
    ((run_elo_simulation ms k_factor initial_rating).2.length = ms.length ∧
      ∀ i m, ms[i]? = some m →
        (run_elo_simulation ms k_factor initial_rating).2[i]? =
          some (eloProcessMatch k_factor initial_rating
            (run_elo_simulation (ms.take i) k_factor initial_rating).1 m).2) ∧
    ((run_glicko_simulation g1 g2 ms initial_rating v).2.length = ms.length ∧
      ∀ i m, ms[i]? = some m →
        (run_glicko_simulation g1 g2 ms initial_rating v).2[i]? =
          some (glickoProcessMatch (chooseCompetitorClass g1 g2 v) initial_rating
            (run_glicko_simulation g1 g2 (ms.take i) initial_rating v).1 m).2) ∧
    (∀ ps m, (eloProcessMatch k_factor initial_rating ps m).2 =
      mkDict
        [("match", PyVal.int m.match_num),
         ("player1", PyVal.str m.player1),
         ("player2", PyVal.str m.player2),
         ("winner", PyVal.str m.winner),
         (m.player1 ++ "_before", PyVal.real
           (eloGet (eloMaterialize k_factor initial_rating ps m) m.player1).rating),
         (m.player1 ++ "_after", PyVal.real
           (eloGet (eloResolve (eloMaterialize k_factor initial_rating ps m) m) m.player1).rating),
         (m.player2 ++ "_before", PyVal.real
           (eloGet (eloMaterialize k_factor initial_rating ps m) m.player2).rating),
         (m.player2 ++ "_after", PyVal.real
           (eloGet (eloResolve (eloMaterialize k_factor initial_rating ps m) m) m.player2).rating)]) :=
  ⟨⟨simRun_trace_length _ _ ms, fun i m hm => simRun_trace_get _ _ ms i m hm⟩,
    ⟨simRun_trace_length _ _ ms, fun i m hm => simRun_trace_get _ _ ms i m hm⟩,
    fun _ _ => rfl⟩

theorem one_trace_entry_per_match_witness :
    (([⟨1, "A", "B", "A"⟩] : List MatchRec)[0]? = some ⟨1, "A", "B", "A"⟩) ∧
    ((run_elo_simulation [⟨1, "A", "B", "A"⟩] 40 1200).2.length =
        ([⟨1, "A", "B", "A"⟩] : List MatchRec).length ∧
      (run_elo_simulation [⟨1, "A", "B", "A"⟩] 40 1200).2[0]? =
        some (eloProcessMatch 40 1200
          (run_elo_simulation (([⟨1, "A", "B", "A"⟩] : List MatchRec).take 0) 40 1200).1
          ⟨1, "A", "B", "A"⟩).2) :=
  ⟨rfl,
    (one_trace_entry_per_match unitGlickoClass unitGlickoClass
      [⟨1, "A", "B", "A"⟩] 40 1200 1).1.1,
    (one_trace_entry_per_match unitGlickoClass unitGlickoClass
      [⟨1, "A", "B", "A"⟩] 40 1200 1).1.2 0 ⟨1, "A", "B", "A"⟩ rfl⟩

/-- C9: a match whose `player1` and `player2` are the same name: both
roles resolve to the single shared registry entry for that name
(materialization creates at most one entry, and the same competitor is
read for both roles; the update then acts on that one shared state),
and the trace entry holds only one before/after pair for the name,
because the f-string dict keys collide — its key list is exactly the
six keys with a single `_before`/`_after` pair. -/
theorem self_match_single_shared_state (k_factor initial_rating : ℝ)
    (ps : EloRegistry) (m : MatchRec) (h : m.player1 = m.player2) :
    eloGet (eloMaterialize k_factor initial_rating ps m) m.player1 =
      eloGet (eloMaterialize k_factor initial_rating ps m) m.player2 ∧
    eloMaterialize k_factor initial_rating ps m =
      (if containsName ps m.player1 then ps
        else ps ++ [(m.player1, ⟨initial_rating, k_factor⟩)]) ∧
    ((eloProcessMatch k_factor initial_rating ps m).1).map Prod.fst =
      (eloMaterialize k_factor initial_rating ps m).map Prod.fst ∧
    ((eloProcessMatch k_factor initial_rating ps m).2).map Prod.fst =
      ["match", "player1", "player2", "winner",
        m.player1 ++ "_before", m.player1 ++ "_after"] := by
  refine ⟨by rw [h], ?_, ?_, ?_⟩
  · rw [eloMaterialize]
    cases h1 : containsName ps m.player1 with
    | true =>
      have h2 : containsName ps m.player2 = true := h ▸ h1
      simp [h1, h2]
    | false =>
      have h2 : containsName (ps ++ [(m.player1, (⟨initial_rating, k_factor⟩ : EloCompetitor))]) m.player2 = true := by
        rw [← h]
        exact containsName_append_self _ _ _
      simp [h1, h2]
  · show (eloResolve (eloMaterialize k_factor initial_rating ps m) m).map Prod.fst = _
    have hc1 := containsName_eloMaterialize₁ k_factor initial_rating ps m
    have hc2 := containsName_eloMaterialize₂ k_factor initial_rating ps m
    rw [eloResolve]
    by_cases hnul : m.winner = "NUL"
    · rw [if_pos hnul, elo_tied, map_fst_elo_apply _ _ _ _ _ hc1 hc2]
    · rw [if_neg hnul]
      by_cases hw1 : m.winner = m.player1
      · rw [if_pos hw1, elo_beat, map_fst_elo_apply _ _ _ _ _ hc1 hc2]
      · rw [if_neg hw1, elo_beat, map_fst_elo_apply _ _ _ _ _ hc2 hc1]
  · show (mkDict _).map Prod.fst = _
    rw [← h]
    exact mkDict_self_keys m.player1 _ _ _ _ _ _ _ _

theorem self_match_single_shared_state_witness :
    (("A" : String) = "A") ∧
    (eloGet (eloMaterialize 40 1200 [] ⟨1, "A", "A", "A"⟩) ("A") =
        eloGet (eloMaterialize 40 1200 [] ⟨1, "A", "A", "A"⟩) ("A") ∧
      eloMaterialize 40 1200 [] ⟨1, "A", "A", "A"⟩ =
        (if containsName ([] : EloRegistry) ("A") then ([] : EloRegistry)
          else [] ++ [(("A" : String), ⟨1200, 40⟩)]) ∧
      ((eloProcessMatch 40 1200 [] ⟨1, "A", "A", "A"⟩).1).map Prod.fst =
        (eloMaterialize 40 1200 [] ⟨1, "A", "A", "A"⟩).map Prod.fst ∧
      ((eloProcessMatch 40 1200 [] ⟨1, "A", "A", "A"⟩).2).map Prod.fst =
        ["match", "player1", "player2", "winner",
          ("A" : String) ++ "_before", ("A" : String) ++ "_after"]) :=
  ⟨rfl, self_match_single_shared_state 40 1200 [] ⟨1, "A", "A", "A"⟩ rfl⟩

/-- C10: the standings reporters are read-only: in state-passing form,
the registry after a call to `get_final_standings` or to
`get_glicko2_standings_with_uncertainty` is exactly the registry before
it — the same entries in the same order, hence every competitor's
rating (and deviation and volatility) unchanged, as witnessed both by
registry equality and entry-wise lookup equality. -/
theorem standings_reporters_read_only (ps : EloRegistry) (qs : Glicko2Registry) :
    (get_final_standings_call ps).2 = ps ∧
    (get_glicko2_standings_call qs).2 = qs ∧
    (∀ n, lookup (get_final_standings_call ps).2 n = lookup ps n) ∧
    (∀ n, lookup (get_glicko2_standings_call qs).2 n = lookup qs n) :=
  ⟨rfl, rfl, fun _ => rfl, fun _ => rfl⟩

end GameOfStick
